import Mathlib

/-!
# Verification of the partdb-kicad-plugin grouping / reconciliation logic

Shallow embedding of the data model and operations of the
`partdb-kicad-plugin` repository (`UI_test.py`, `plugin.py`,
`partdb/api.py`, `partdb/part.py`), together with theorems settling the
specification claims about grouping, reconciliation, commit/write-back,
the inventory client's error handling and configuration loading.

Python's built-in `sorted` is a stable sort; it is modelled by Mathlib's
`List.insertionSort`, which is stable and sorted with respect to the same
total preorder, and therefore produces the same output list.
-/

namespace PartDBPlugin

/-! ## Python string primitives

Executable models of the Python string operations the grouping code
uses: `str.strip`, `str.lower` (ASCII case mapping, which covers every
identifier this plugin handles) and string comparison, which in Python
is lexicographic on code points with a proper prefix sorting first. -/

/-- Python `str.strip()`: drop leading and trailing whitespace. -/
def pyStrip (s : String) : String :=
  ⟨((s.data.dropWhile Char.isWhitespace).reverse.dropWhile Char.isWhitespace).reverse⟩

/-- Python `str.lower()` (ASCII range). -/
def pyLower (s : String) : String := ⟨s.data.map Char.toLower⟩

/-- Python `<` on strings: lexicographic comparison of code points,
a proper prefix comparing less than its extensions. -/
def charListLt : List Char → List Char → Bool
  | [], [] => false
  | [], _ :: _ => true
  | _ :: _, [] => false
  | a :: as, b :: bs => if a < b then true else if b < a then false else charListLt as bs

def strLt (a b : String) : Prop := charListLt a.data b.data = true

/-- Python `<=` on strings, expressed as the negation of `>` (strings
are totally ordered). -/
def strLe (a b : String) : Prop := charListLt b.data a.data = false

instance : DecidableRel strLt := fun a b => by unfold strLt; infer_instance

instance : DecidableRel strLe := fun a b => by unfold strLe; infer_instance

theorem charListLt_nil (l : List Char) : charListLt l [] = false := by
  cases l <;> rfl

theorem charListLt_trichotomy : ∀ as bs : List Char,
    charListLt as bs = true ∨ as = bs ∨ charListLt bs as = true
  | [], [] => Or.inr (Or.inl rfl)
  | [], _ :: _ => Or.inl rfl
  | _ :: _, [] => Or.inr (Or.inr rfl)
  | a :: as, b :: bs => by
    rcases lt_trichotomy a b with h | h | h
    · exact Or.inl (by simp [charListLt, h])
    · subst h
      rcases charListLt_trichotomy as bs with h' | h' | h'
      · exact Or.inl (by simp [charListLt, h'])
      · exact Or.inr (Or.inl (by rw [h']))
      · exact Or.inr (Or.inr (by simp [charListLt, h']))
    · exact Or.inr (Or.inr (by simp [charListLt, h, not_lt_of_gt h]))

theorem charListLt_irrefl : ∀ as : List Char, charListLt as as = false
  | [] => rfl
  | a :: as => by simp [charListLt, charListLt_irrefl as]

theorem charListLt_trans : ∀ {as bs cs : List Char},
    charListLt as bs = true → charListLt bs cs = true → charListLt as cs = true
  | [], _ :: _, _ :: _, _, _ => rfl
  | a :: as, b :: bs, c :: cs, h1, h2 => by
    simp only [charListLt] at h1 h2 ⊢
    by_cases hab : a < b
    · by_cases hbc : b < c
      · simp [lt_trans hab hbc]
      · by_cases hcb : c < b
        · simp [if_neg hbc, if_pos hcb] at h2
        · have hbc' : b = c := le_antisymm (not_lt.1 hcb) (not_lt.1 hbc)
          simp [hbc' ▸ hab]
    · by_cases hba : b < a
      · simp [if_neg hab, if_pos hba] at h1
      · have hab' : a = b := le_antisymm (not_lt.1 hba) (not_lt.1 hab)
        subst hab'
        by_cases hac : a < c
        · simp [hac]
        · by_cases hca : c < a
          · simp [if_neg hac, if_pos hca] at h2
          · simp only [if_neg hac, if_neg hca]
            simp only [if_neg hab, if_neg hba] at h1
            simp only [if_neg hac, if_neg hca] at h2
            exact charListLt_trans h1 h2

theorem charListLt_asymm {as bs : List Char}
    (h : charListLt as bs = true) : charListLt bs as = false := by
  by_contra hc
  have h2 : charListLt bs as = true := by
    cases hcb : charListLt bs as
    · exact absurd hcb hc
    · rfl
  have := charListLt_trans h h2
  rw [charListLt_irrefl] at this
  cases this

/-- Python tuple `<=` for a pair of strings. -/
def pairLe (a b : String × String) : Prop :=
  strLt a.1 b.1 ∨ (a.1 = b.1 ∧ strLe a.2 b.2)

instance : DecidableRel pairLe := fun a b => by
  unfold pairLe; infer_instance

theorem strLe_total (a b : String) : strLe a b ∨ strLe b a := by
  cases hc : charListLt b.data a.data
  · exact Or.inl hc
  · exact Or.inr (charListLt_asymm hc)

theorem strLe_trans {a b c : String} (h1 : strLe a b) (h2 : strLe b c) : strLe a c := by
  have h1' : charListLt b.data a.data = false := h1
  have h2' : charListLt c.data b.data = false := h2
  show charListLt c.data a.data = false
  by_contra hc
  have h3 : charListLt c.data a.data = true := by
    cases hca : charListLt c.data a.data
    · exact absurd hca hc
    · rfl
  rcases charListLt_trichotomy a.data b.data with h' | h' | h'
  · have := charListLt_trans h3 h'
    rw [this] at h2'
    cases h2'
  · rw [← h'] at h2'
    rw [h3] at h2'
    cases h2'
  · rw [h'] at h1'
    cases h1'

theorem strLt_of_ne_of_not_lt {a b : String}
    (hne : a ≠ b) (h : charListLt b.data a.data = false) : strLt a b := by
  rcases charListLt_trichotomy a.data b.data with h' | h' | h'
  · exact h'
  · exact absurd (by cases a; cases b; exact congrArg String.mk h') hne
  · rw [h'] at h
    cases h

theorem pairLe_total (a b : String × String) : pairLe a b ∨ pairLe b a := by
  by_cases he : a.1 = b.1
  · rcases strLe_total a.2 b.2 with h | h
    · exact Or.inl (Or.inr ⟨he, h⟩)
    · exact Or.inr (Or.inr ⟨he.symm, h⟩)
  · by_cases hlt : charListLt b.1.data a.1.data = true
    · exact Or.inr (Or.inl hlt)
    · have : charListLt b.1.data a.1.data = false := by
        cases hc : charListLt b.1.data a.1.data
        · rfl
        · exact absurd hc hlt
      exact Or.inl (Or.inl (strLt_of_ne_of_not_lt he this))

theorem strLt_asymm_le {a b : String} (h : strLt a b) : strLe a b :=
  charListLt_asymm h

theorem strLt_trans_le {a b c : String} (h1 : strLt a b) (h2 : strLe b c) : strLt a c := by
  have h1' : charListLt a.data b.data = true := h1
  have h2' : charListLt c.data b.data = false := h2
  show charListLt a.data c.data = true
  rcases charListLt_trichotomy b.data c.data with h' | h' | h'
  · exact charListLt_trans h1' h'
  · rw [← h']; exact h1'
  · rw [h'] at h2'; cases h2'

theorem strLe_trans_lt {a b c : String} (h1 : strLe a b) (h2 : strLt b c) : strLt a c := by
  have h1' : charListLt b.data a.data = false := h1
  have h2' : charListLt b.data c.data = true := h2
  show charListLt a.data c.data = true
  rcases charListLt_trichotomy a.data b.data with h' | h' | h'
  · exact charListLt_trans h' h2'
  · rw [h']; exact h2'
  · rw [h'] at h1'; cases h1'

theorem pairLe_trans {a b c : String × String}
    (hab : pairLe a b) (hbc : pairLe b c) : pairLe a c := by
  rcases hab with h1 | ⟨h1, h1'⟩ <;> rcases hbc with h2 | ⟨h2, h2'⟩
  · exact Or.inl (strLt_trans_le h1 (strLt_asymm_le h2))
  · exact Or.inl (h2 ▸ h1)
  · exact Or.inl (h1 ▸ h2)
  · exact Or.inr ⟨h1.trans h2, strLe_trans h1' h2'⟩

/-! ## Sort keys for `group_footprints` (UI_test.py line 65)

`sorted(groups.keys(), key=lambda k: (k[0].lower(), k[1].lower()))`
compares the case-lowered components of the `(MPN, PartDB_ID)` key pair
lexicographically (Python tuple comparison). -/

/-- Python `(k[0].lower(), k[1].lower())`: the sort key of a group key. -/
def lowerKey (k : String × String) : String × String :=
  (pyLower k.1, pyLower k.2)

/-- The comparison used to sort group keys: case-insensitive
lexicographic comparison of the two components. -/
def keyLe (a b : String × String) : Prop :=
  pairLe (lowerKey a) (lowerKey b)

instance : DecidableRel keyLe := fun a b => by
  unfold keyLe; infer_instance

instance : IsTotal (String × String) keyLe :=
  ⟨fun a b => pairLe_total (lowerKey a) (lowerKey b)⟩

instance : IsTrans (String × String) keyLe :=
  ⟨fun _ _ _ hab hbc => pairLe_trans hab hbc⟩

/-! ## Generic grouping engine

Both `group_footprints` (UI_test.py lines 54-66) and
`PartDBPlugin._load_board_footprints` (plugin.py lines 473-487) build a
`defaultdict(list)` keyed by a derived key, appending each footprint to
its key's bucket in encounter order.  A Python dict is insertion-ordered
with unique keys, so it is modelled by an association list in
first-encounter key order. -/

section Grouping

variable {α : Type} {κ : Type}

/-- Concatenation of all group member lists, in group order. -/
def concatMembers : List (κ × List α) → List α
  | [] => []
  | g :: gs => g.2 ++ concatMembers gs

theorem concatMembers_append (a b : List (κ × List α)) :
    concatMembers (a ++ b) = concatMembers a ++ concatMembers b := by
  induction a with
  | nil => rfl
  | cons g gs ih => simp [concatMembers, ih]

theorem mem_of_mem_concatMembers {gs : List (κ × List α)} {fp : α}
    (h : fp ∈ concatMembers gs) : ∃ g ∈ gs, fp ∈ g.2 := by
  induction gs with
  | nil => cases h
  | cons g gs ih =>
    rcases List.mem_append.1 h with h' | h'
    · exact ⟨g, List.mem_cons_self .., h'⟩
    · obtain ⟨g', hg', hfp⟩ := ih h'
      exact ⟨g', List.mem_cons_of_mem _ hg', hfp⟩

theorem concatMembers_perm {gs hs : List (κ × List α)} (h : gs.Perm hs) :
    (concatMembers gs).Perm (concatMembers hs) := by
  induction h with
  | nil => exact List.Perm.refl _
  | cons x _ ih => exact List.Perm.append_left x.2 ih
  | swap x y l =>
    show (y.2 ++ (x.2 ++ concatMembers l)).Perm (x.2 ++ (y.2 ++ concatMembers l))
    rw [← List.append_assoc, ← List.append_assoc]
    exact List.perm_append_comm.append_right _
  | trans _ _ ih1 ih2 => exact ih1.trans ih2

variable [DecidableEq κ]

/-- `groups[key].append(fp)` on an insertion-ordered dict: append `fp`
to the unique bucket with key `k`, or add a new bucket at the end. -/
def addToGroups (k : κ) (fp : α) : List (κ × List α) → List (κ × List α)
  | [] => [(k, [fp])]
  | g :: gs => if g.1 = k then (g.1, g.2 ++ [fp]) :: gs else g :: addToGroups k fp gs

theorem addToGroups_nil (k : κ) (fp : α) : addToGroups k fp [] = [(k, [fp])] := rfl

theorem addToGroups_cons (k : κ) (fp : α) (g : κ × List α) (gs : List (κ × List α)) :
    addToGroups k fp (g :: gs) =
      if g.1 = k then (g.1, g.2 ++ [fp]) :: gs else g :: addToGroups k fp gs := rfl

variable (key : α → κ)

/-- The grouping loop: `for fp in fps: groups[key(fp)].append(fp)`. -/
def buildGroups (fps : List α) : List (κ × List α) :=
  fps.foldl (fun acc fp => addToGroups (key fp) fp acc) []

theorem addToGroups_keys (k : κ) (fp : α) (gs : List (κ × List α)) :
    (addToGroups k fp gs).map Prod.fst =
      if k ∈ gs.map Prod.fst then gs.map Prod.fst else gs.map Prod.fst ++ [k] := by
  induction gs with
  | nil => simp [addToGroups]
  | cons g gs ih =>
    by_cases h : g.1 = k
    · simp [addToGroups, h]
    · have hne : ¬ k = g.1 := fun hk => h hk.symm
      simp only [addToGroups, if_neg h, List.map_cons, ih]
      by_cases hm : k ∈ gs.map Prod.fst
      · simp [hm, hne]
      · simp [hm, hne]

theorem addToGroups_keys_nodup {k : κ} {fp : α} {gs : List (κ × List α)}
    (h : (gs.map Prod.fst).Nodup) :
    ((addToGroups k fp gs).map Prod.fst).Nodup := by
  rw [addToGroups_keys]
  split
  · exact h
  · next hk =>
    exact h.append (List.nodup_singleton k)
      (fun a ha hb => by
        have : a = k := by simpa using hb
        exact hk (this ▸ ha))

theorem mem_keys_addToGroups_self (k : κ) (fp : α) (gs : List (κ × List α)) :
    k ∈ (addToGroups k fp gs).map Prod.fst := by
  rw [addToGroups_keys]
  split
  · assumption
  · simp

theorem mem_keys_addToGroups_of {k' : κ} (k : κ) (fp : α) {gs : List (κ × List α)}
    (h : k' ∈ gs.map Prod.fst) : k' ∈ (addToGroups k fp gs).map Prod.fst := by
  rw [addToGroups_keys]
  split
  · exact h
  · simp [h]

theorem keys_addToGroups_sub {k' : κ} {k : κ} {fp : α} {gs : List (κ × List α)}
    (h : k' ∈ (addToGroups k fp gs).map Prod.fst) :
    k' ∈ gs.map Prod.fst ∨ k' = k := by
  rw [addToGroups_keys] at h
  split at h
  · exact Or.inl h
  · rcases List.mem_append.1 h with h' | h'
    · exact Or.inl h'
    · exact Or.inr (by simpa using h')

theorem concatMembers_addToGroups (k : κ) (fp : α) (gs : List (κ × List α)) :
    (concatMembers (addToGroups k fp gs)).Perm (concatMembers gs ++ [fp]) := by
  induction gs with
  | nil => simp [addToGroups, concatMembers]
  | cons g gs ih =>
    by_cases h : g.1 = k
    · simp only [addToGroups_cons, if_pos h, concatMembers]
      rw [List.append_assoc, List.append_assoc]
      exact List.Perm.append_left g.2 List.perm_append_comm
    · simp only [addToGroups_cons, if_neg h, concatMembers]
      rw [List.append_assoc]
      exact List.Perm.append_left g.2 ih

/-- Members of the matching bucket after an insertion, relative to the
prefix of footprints already processed. -/
theorem addToGroups_members {pre : List α} {fp : α} {gs : List (κ × List α)}
    (hmem : ∀ g ∈ gs, g.2 = pre.filter (fun x => key x = g.1))
    (hnd : (gs.map Prod.fst).Nodup)
    (hcov : pre.filter (fun x => key x = key fp) ≠ [] → key fp ∈ gs.map Prod.fst) :
    ∀ g ∈ addToGroups (key fp) fp gs,
      g.2 = (pre ++ [fp]).filter (fun x => key x = g.1) := by
  induction gs with
  | nil =>
    intro g hg
    simp only [addToGroups, List.mem_singleton] at hg
    subst hg
    have hpre : pre.filter (fun x => key x = key fp) = [] := by
      by_contra h
      simpa using hcov h
    simp [List.filter_append, hpre]
  | cons g0 gs ih =>
    intro g hg
    by_cases h : g0.1 = key fp
    · rw [addToGroups_cons, if_pos h] at hg
      rcases List.mem_cons.1 hg with hg' | hg'
      · subst hg'
        have hm := hmem g0 (List.mem_cons_self ..)
        show g0.2 ++ [fp] = (pre ++ [fp]).filter (fun x => key x = g0.1)
        rw [List.filter_append, ← hm]
        have hfp : [fp].filter (fun x => key x = g0.1) = [fp] := by
          simp [h.symm]
        rw [hfp]
      · have hm := hmem g (List.mem_cons_of_mem _ hg')
        have hkne : key fp ≠ g.1 := by
          intro he
          have h1 : g.1 ∈ gs.map Prod.fst := List.mem_map_of_mem Prod.fst hg'
          have h2 : g0.1 ∉ gs.map Prod.fst := (List.nodup_cons.1 hnd).1
          exact h2 (by rw [h, he]; exact h1)
        rw [hm, List.filter_append]
        have hfp : [fp].filter (fun x => key x = g.1) = [] := by
          simp [hkne]
        rw [hfp, List.append_nil]
    · rw [addToGroups_cons, if_neg h] at hg
      rcases List.mem_cons.1 hg with hg' | hg'
      · subst hg'
        have hm := hmem g (List.mem_cons_self ..)
        have hkne : key fp ≠ g.1 := fun he => h he.symm
        rw [hm, List.filter_append]
        have hfp : [fp].filter (fun x => key x = g.1) = [] := by
          simp [hkne]
        rw [hfp, List.append_nil]
      · exact ih (fun g' hg'' => hmem g' (List.mem_cons_of_mem _ hg''))
          (List.nodup_cons.1 hnd).2
          (fun hne => by
            rcases List.mem_cons.1 (hcov hne) with h' | h'
            · exact absurd h'.symm h
            · exact h') g hg'

/-- Combined invariant of the grouping loop over the processed prefix. -/
def GroupInv (pre : List α) (gs : List (κ × List α)) : Prop :=
  (gs.map Prod.fst).Nodup ∧
  (∀ g ∈ gs, g.2 = pre.filter (fun x => key x = g.1)) ∧
  (∀ x ∈ pre, key x ∈ gs.map Prod.fst) ∧
  (∀ k ∈ gs.map Prod.fst, ∃ x ∈ pre, key x = k)

theorem groupInv_step {pre : List α} {gs : List (κ × List α)} (fp : α)
    (h : GroupInv key pre gs) :
    GroupInv key (pre ++ [fp]) (addToGroups (key fp) fp gs) := by
  obtain ⟨hnd, hmem, hcov, hwit⟩ := h
  have hcov' : pre.filter (fun x => key x = key fp) ≠ [] → key fp ∈ gs.map Prod.fst := by
    intro hne
    obtain ⟨x, hx⟩ := List.exists_mem_of_ne_nil _ hne
    have hx' := List.mem_filter.1 hx
    have hkx : key x = key fp := by simpa using hx'.2
    exact hkx ▸ hcov x hx'.1
  refine ⟨addToGroups_keys_nodup hnd, addToGroups_members key hmem hnd hcov', ?_, ?_⟩
  · intro x hx
    rcases List.mem_append.1 hx with hx' | hx'
    · exact mem_keys_addToGroups_of _ fp (hcov x hx')
    · have hxe : x = fp := by simpa using hx'
      subst hxe
      exact mem_keys_addToGroups_self ..
  · intro k hk
    rcases keys_addToGroups_sub (κ := κ) hk with h' | h'
    · obtain ⟨x, hx, hkx⟩ := hwit k h'
      exact ⟨x, List.mem_append_left _ hx, hkx⟩
    · subst h'
      exact ⟨fp, List.mem_append_right _ (by simp), rfl⟩

theorem groupInv_foldl (fps : List α) : ∀ (pre : List α) (gs : List (κ × List α)),
    GroupInv key pre gs →
    GroupInv key (pre ++ fps)
      (fps.foldl (fun acc fp => addToGroups (key fp) fp acc) gs) := by
  induction fps with
  | nil => intro pre gs h; simpa using h
  | cons fp fps ih =>
    intro pre gs h
    have := ih (pre ++ [fp]) _ (groupInv_step key fp h)
    simpa [List.append_assoc] using this

theorem groupInv_buildGroups (fps : List α) : GroupInv key fps (buildGroups key fps) := by
  have := groupInv_foldl key fps [] []
    ⟨by simp, by simp, by simp, by simp⟩
  simpa [buildGroups] using this

theorem buildGroups_keys_nodup (fps : List α) :
    ((buildGroups key fps).map Prod.fst).Nodup :=
  (groupInv_buildGroups key fps).1

theorem buildGroups_members (fps : List α) :
    ∀ g ∈ buildGroups key fps, g.2 = fps.filter (fun x => key x = g.1) :=
  (groupInv_buildGroups key fps).2.1

theorem buildGroups_members_ne_nil (fps : List α) :
    ∀ g ∈ buildGroups key fps, g.2 ≠ [] := by
  intro g hg
  obtain ⟨x, hx, hkx⟩ := (groupInv_buildGroups key fps).2.2.2 g.1
    (List.mem_map_of_mem Prod.fst hg)
  rw [buildGroups_members key fps g hg]
  intro hnil
  have : x ∈ fps.filter (fun y => key y = g.1) := List.mem_filter.2 ⟨hx, by simp [hkx]⟩
  rw [hnil] at this
  cases this

theorem concatMembers_foldl (fps : List α) : ∀ gs : List (κ × List α),
    (concatMembers (fps.foldl (fun acc fp => addToGroups (key fp) fp acc) gs)).Perm
      (concatMembers gs ++ fps) := by
  induction fps with
  | nil => intro gs; simp
  | cons fp fps ih =>
    intro gs
    simp only [List.foldl_cons]
    have h1 := ih (addToGroups (key fp) fp gs)
    have h2 := (concatMembers_addToGroups (key fp) fp gs).append_right fps
    have h3 : (concatMembers gs ++ [fp]) ++ fps = concatMembers gs ++ fp :: fps := by
      rw [List.append_assoc]; rfl
    exact h1.trans (h3 ▸ h2)

/-- The grouping loop is a partition: flattening all buckets gives back
the input as a multiset. -/
theorem concatMembers_buildGroups (fps : List α) :
    (concatMembers (buildGroups key fps)).Perm fps := by
  simpa [buildGroups, concatMembers] using concatMembers_foldl key fps []

theorem addToGroups_append_of_not_mem {k : κ} (fp : α) {a : List (κ × List α)}
    (b : List (κ × List α)) (h : k ∉ a.map Prod.fst) :
    addToGroups k fp (a ++ b) = a ++ addToGroups k fp b := by
  induction a with
  | nil => simp
  | cons g gs ih =>
    have h1 : ¬ g.1 = k := by
      intro he
      exact h (by simp [he])
    show addToGroups k fp (g :: (gs ++ b)) = g :: (gs ++ addToGroups k fp b)
    rw [addToGroups_cons, if_neg h1, ih (fun hm => h (by simp [hm]))]

theorem foldl_addToGroups_append (xs : List α) {a : List (κ × List α)}
    (b : List (κ × List α)) (h : ∀ x ∈ xs, key x ∉ a.map Prod.fst) :
    xs.foldl (fun acc fp => addToGroups (key fp) fp acc) (a ++ b)
      = a ++ xs.foldl (fun acc fp => addToGroups (key fp) fp acc) b := by
  induction xs generalizing b with
  | nil => simp
  | cons x xs ih =>
    simp only [List.foldl_cons]
    rw [addToGroups_append_of_not_mem x b (h x (by simp))]
    exact ih _ (fun y hy => h y (by simp [hy]))

theorem foldl_addToGroups_same_key {k : κ} (ms : List α) (acc : List α)
    (h : ∀ x ∈ ms, key x = k) :
    ms.foldl (fun a fp => addToGroups (key fp) fp a) [(k, acc)] = [(k, acc ++ ms)] := by
  induction ms generalizing acc with
  | nil => simp
  | cons m ms ih =>
    simp only [List.foldl_cons]
    have hk : key m = k := h m (by simp)
    have hstep : addToGroups (key m) m [(k, acc)] = [(k, acc ++ [m])] := by
      simp [addToGroups, hk]
    rw [hstep, ih (acc ++ [m]) (fun x hx => h x (by simp [hx]))]
    simp

/-- Regrouping the concatenation of a grouped list whose keys are
distinct, whose buckets are nonempty, and whose members carry their
bucket's key, reproduces the grouped list exactly. -/
theorem buildGroups_concatMembers {sp : List (κ × List α)}
    (hnd : (sp.map Prod.fst).Nodup)
    (hne : ∀ g ∈ sp, g.2 ≠ [])
    (hkey : ∀ g ∈ sp, ∀ x ∈ g.2, key x = g.1) :
    buildGroups key (concatMembers sp) = sp := by
  induction sp with
  | nil => rfl
  | cons g sp ih =>
    have hgne := hne g (List.mem_cons_self ..)
    obtain ⟨m, ms, hms⟩ := List.exists_cons_of_ne_nil hgne
    have h1 : g.2.foldl (fun acc fp => addToGroups (key fp) fp acc) [] = [(g.1, g.2)] := by
      rw [hms]
      simp only [List.foldl_cons]
      have hkm : key m = g.1 := hkey g (List.mem_cons_self ..) m (by simp [hms])
      have hstep : addToGroups (key m) m [] = [(g.1, [m])] := by
        simp [addToGroups, hkm]
      rw [hstep, foldl_addToGroups_same_key key ms [m]
        (fun x hx => hkey g (List.mem_cons_self ..) x (by simp [hms, hx]))]
      rfl
    have h2 : ∀ x ∈ concatMembers sp,
        key x ∉ ([(g.1, g.2)] : List (κ × List α)).map Prod.fst := by
      intro x hx
      obtain ⟨g', hg', hxg'⟩ := mem_of_mem_concatMembers hx
      have hkx : key x = g'.1 := hkey g' (List.mem_cons_of_mem _ hg') x hxg'
      have hg1 : g'.1 ≠ g.1 := by
        intro he
        exact (List.nodup_cons.1 hnd).1 (he ▸ List.mem_map_of_mem Prod.fst hg')
      simp [hkx, hg1]
    have h3 : buildGroups key (concatMembers sp) = sp :=
      ih (List.nodup_cons.1 hnd).2
        (fun g' hg' => hne g' (List.mem_cons_of_mem _ hg'))
        (fun g' hg' => hkey g' (List.mem_cons_of_mem _ hg'))
    show buildGroups key (g.2 ++ concatMembers sp) = g :: sp
    unfold buildGroups
    rw [List.foldl_append, h1]
    have h4 := foldl_addToGroups_append key (concatMembers sp)
      ([] : List (κ × List α)) h2
    simp only [List.append_nil] at h4
    rw [h4]
    unfold buildGroups at h3
    rw [h3]
    rfl

end Grouping

/-! ## UI_test.py: demo footprint model and `group_footprints` -/

/-- `DummyField` (UI_test.py lines 29-33): a named field whose `text.value`
is the raw value (`None` or a string). -/
structure DummyField where
  name : String
  value : Option String
deriving DecidableEq

/-- `DummyFootprintInstance` (UI_test.py lines 35-42): a reference
designator, the named text fields, and the two BOM attributes. -/
structure DummyFootprintInstance where
  reference : String
  texts_and_fields : List DummyField
  do_not_populate : Bool
  exclude_from_bill_of_materials : Bool
deriving DecidableEq

/-- `f.text.value.strip() if f.text and f.text.value else ""` from the
dict comprehension in `group_footprints`: `f.text` is always truthy, and
a missing or empty value normalizes to `""`. -/
def fieldText (f : DummyField) : String :=
  match f.value with
  | none => ""
  | some s => if s = "" then "" else pyStrip s

/-- `fields.get(name, "")` over the dict comprehension
`{f.name: ... for f in fp.texts_and_fields}`; for duplicate field names
the later entry wins, as in a Python dict build. -/
def fieldsGet (fs : List DummyField) (name : String) : String :=
  match (fs.filter (fun f => f.name = name)).getLast? with
  | none => ""
  | some f => fieldText f

/-- The grouping key `(fields.get("MPN", ""), fields.get("PartDB_ID", ""))`
(UI_test.py lines 58-62). -/
def uiKey (fp : DummyFootprintInstance) : String × String :=
  (fieldsGet fp.texts_and_fields "MPN", fieldsGet fp.texts_and_fields "PartDB_ID")

/-- `groups[key]` lookup; dict keys are unique. -/
def dictLookup (gs : List ((String × String) × List DummyFootprintInstance))
    (k : String × String) : List DummyFootprintInstance :=
  match gs.find? (fun g => g.1 = k) with
  | none => []
  | some g => g.2

/-- `group_footprints` (UI_test.py lines 54-66): group the footprints by
`(MPN, PartDB_ID)`, then emit `(key, groups[key])` for the keys sorted by
`(k[0].lower(), k[1].lower())`.  Python's built-in `sorted` is stable, so
it is modelled by the stable `List.insertionSort keyLe`. -/
def group_footprints (fps : List DummyFootprintInstance) :
    List ((String × String) × List DummyFootprintInstance) :=
  let groups := buildGroups uiKey fps
  let sorted_keys := List.insertionSort keyLe (groups.map Prod.fst)
  sorted_keys.map (fun k => (k, dictLookup groups k))

/-- Sorting the `(key, members)` pairs by the key comparison. -/
def groupLe (g h : (String × String) × List DummyFootprintInstance) : Prop :=
  keyLe g.1 h.1

instance : DecidableRel groupLe := fun g h =>
  inferInstanceAs (Decidable (keyLe g.1 h.1))

instance : IsTotal ((String × String) × List DummyFootprintInstance) groupLe :=
  ⟨fun a b => IsTotal.total (r := keyLe) a.1 b.1⟩

instance : IsTrans ((String × String) × List DummyFootprintInstance) groupLe :=
  ⟨fun _ _ _ hab hbc => Trans.trans (r := keyLe) hab hbc⟩

theorem dictLookup_eq {gs : List ((String × String) × List DummyFootprintInstance)}
    (hnd : (gs.map Prod.fst).Nodup) {g} (hg : g ∈ gs) : dictLookup gs g.1 = g.2 := by
  induction gs with
  | nil => cases hg
  | cons g0 gs ih =>
    by_cases h : g0.1 = g.1
    · have hg0 : g0 = g := by
        rcases List.mem_cons.1 hg with h' | h'
        · exact h'.symm
        · exact absurd (h ▸ List.mem_map_of_mem Prod.fst h')
            (List.nodup_cons.1 hnd).1
      subst hg0
      unfold dictLookup
      rw [List.find?_cons_of_pos _ (by simp)]
    · have hg' : g ∈ gs := by
        rcases List.mem_cons.1 hg with h' | h'
        · exact absurd (congrArg Prod.fst h'.symm) h
        · exact h'
      have := ih (List.nodup_cons.1 hnd).2 hg'
      unfold dictLookup at this ⊢
      rw [List.find?_cons_of_neg _ (by simp [h])]
      exact this

/-- Sorting the keys and looking each one up in the (unique-keyed) group
dict is the same as sorting the `(key, members)` pairs directly. -/
theorem group_footprints_eq (fps : List DummyFootprintInstance) :
    group_footprints fps = List.insertionSort groupLe (buildGroups uiKey fps) := by
  have hmap : (List.insertionSort groupLe (buildGroups uiKey fps)).map Prod.fst
      = List.insertionSort keyLe ((buildGroups uiKey fps).map Prod.fst) :=
    List.map_insertionSort groupLe keyLe Prod.fst _ (fun _ _ _ _ => Iff.rfl)
  show (List.insertionSort keyLe ((buildGroups uiKey fps).map Prod.fst)).map
      (fun k => (k, dictLookup (buildGroups uiKey fps) k))
    = List.insertionSort groupLe (buildGroups uiKey fps)
  rw [← hmap, List.map_map]
  have : ∀ g ∈ List.insertionSort groupLe (buildGroups uiKey fps),
      ((fun k => (k, dictLookup (buildGroups uiKey fps) k)) ∘ Prod.fst) g = g := by
    intro g hg
    have hg' : g ∈ buildGroups uiKey fps := (List.mem_insertionSort groupLe).1 hg
    have := dictLookup_eq (buildGroups_keys_nodup uiKey fps) hg'
    simp [this]
  rw [List.map_congr_left this]
  exact List.map_id' _

theorem group_footprints_perm (fps : List DummyFootprintInstance) :
    (concatMembers (group_footprints fps)).Perm fps := by
  rw [group_footprints_eq]
  exact (concatMembers_perm (List.perm_insertionSort groupLe _)).trans
    (concatMembers_buildGroups uiKey fps)

theorem group_footprints_keys_nodup (fps : List DummyFootprintInstance) :
    ((group_footprints fps).map Prod.fst).Nodup := by
  rw [group_footprints_eq]
  exact ((List.perm_insertionSort groupLe _).map Prod.fst).nodup_iff.2
    (buildGroups_keys_nodup uiKey fps)

theorem group_footprints_members (fps : List DummyFootprintInstance) :
    ∀ g ∈ group_footprints fps, g.2 = fps.filter (fun fp => uiKey fp = g.1) := by
  rw [group_footprints_eq]
  intro g hg
  exact buildGroups_members uiKey fps g ((List.mem_insertionSort groupLe).1 hg)

theorem group_footprints_sorted (fps : List DummyFootprintInstance) :
    List.Sorted groupLe (group_footprints fps) := by
  rw [group_footprints_eq]
  exact List.sorted_insertionSort groupLe _

/-- The empty key pair compares `≤` every key under the
case-insensitive ordering: the empty string is the minimum of the
lexicographic string order, so the all-empty key sorts first, not last. -/
theorem keyLe_empty_min (k : String × String) : keyLe ("", "") k := by
  have hlow : lowerKey ("", "") = ("", "") := by decide
  show pairLe (lowerKey ("", "")) (lowerKey k)
  rw [hlow]
  by_cases h : ("" : String) = (lowerKey k).1
  · refine Or.inr ⟨h, ?_⟩
    show charListLt (lowerKey k).2.data ("" : String).data = false
    exact charListLt_nil _
  · refine Or.inl (strLt_of_ne_of_not_lt h ?_)
    exact charListLt_nil _

/-- The selection loop of `BomDialog.on_refresh` (UI_test.py
lines 100-111): `continue` on footprints marked do-not-populate or
excluded from the bill of materials, keep the rest in order. -/
def uiRefreshSelected : List DummyFootprintInstance → List DummyFootprintInstance
  | [] => []
  | fp :: rest =>
    if fp.do_not_populate || fp.exclude_from_bill_of_materials
    then uiRefreshSelected rest
    else fp :: uiRefreshSelected rest

theorem uiRefreshSelected_eq_filter (fps : List DummyFootprintInstance) :
    uiRefreshSelected fps =
      fps.filter (fun fp => !(fp.do_not_populate || fp.exclude_from_bill_of_materials)) := by
  induction fps with
  | nil => rfl
  | cons fp rest ih =>
    show (if fp.do_not_populate || fp.exclude_from_bill_of_materials
          then uiRefreshSelected rest else fp :: uiRefreshSelected rest)
        = List.filter
            (fun g => !(g.do_not_populate || g.exclude_from_bill_of_materials))
            (fp :: rest)
    rw [List.filter_cons]
    cases h : (fp.do_not_populate || fp.exclude_from_bill_of_materials)
    · rw [if_neg (by simp [h]), ih, if_pos (by simp [h])]
    · rw [if_pos (by simp [h]), ih, if_neg (by simp [h])]

/-- Regrouping the flattened members of a grouped output reproduces it:
the buckets are nonempty, carry their own key, and the keys are distinct,
so rebuilding the dict recovers the same buckets in the same order, and
re-sorting an already sorted key list is the identity. -/
theorem group_footprints_idem (fps : List DummyFootprintInstance) :
    group_footprints (concatMembers (group_footprints fps)) = group_footprints fps := by
  have hsp := group_footprints_eq fps
  have hnd : ((group_footprints fps).map Prod.fst).Nodup := group_footprints_keys_nodup fps
  have hne : ∀ g ∈ group_footprints fps, g.2 ≠ [] := by
    rw [hsp]
    intro g hg
    exact buildGroups_members_ne_nil uiKey fps g ((List.mem_insertionSort groupLe).1 hg)
  have hkey : ∀ g ∈ group_footprints fps, ∀ x ∈ g.2, uiKey x = g.1 := by
    intro g hg x hx
    have := group_footprints_members fps g hg
    rw [this] at hx
    simpa using (List.mem_filter.1 hx).2
  have hbuild : buildGroups uiKey (concatMembers (group_footprints fps))
      = group_footprints fps :=
    buildGroups_concatMembers uiKey hnd hne hkey
  rw [group_footprints_eq (concatMembers (group_footprints fps)), hbuild, hsp]
  exact List.Sorted.insertionSort_eq (hsp ▸ group_footprints_sorted fps)

/-! ## plugin.py: board footprint model, inventory Part model, FootprintData -/

/-- A `PCB_FIELD`: name, text and visibility, the slice the plugin
touches. -/
structure PCBField where
  name : String
  text : String
  visible : Bool
deriving DecidableEq

/-- The slice of a `pcbnew.FOOTPRINT` the plugin reads and writes: the
reference designator, the named fields, and the two BOM attribute
flags. -/
structure PCBFootprint where
  reference : String
  fields : List PCBField
  excludedFromBOM : Bool
  doNotPopulate : Bool
deriving DecidableEq

/-- `Storage` (partdb/part.py lines 50-53). -/
structure Storage where
  id : Int
  name : String
  full_path : String
deriving DecidableEq

/-- `PartLot` (partdb/part.py lines 55-57). -/
structure PartLot where
  storage_location : Storage
  amount : Int
deriving DecidableEq

/-- `Category` (partdb/part.py lines 59-62). -/
structure Category where
  id : Int
  name : String
  full_path : String
deriving DecidableEq

/-- `Part` (partdb/part.py lines 64-70). -/
structure Part where
  id : Int
  name : String
  manufacturer_product_number : String
  category : Category
  description : String
  partLots : List PartLot
deriving DecidableEq

def STORAGE_LOCATION_FIELD_NAME : String := "Storage_Location"
def PARTDB_ID_FIELD_NAME : String := "PartDB_ID"
def MPN_FIELD_NAME : String := "MPN"

/-- `FOOTPRINT.GetFieldByName`: the field with the given name, if any. -/
def getFieldByName (fp : PCBFootprint) (name : String) : Option PCBField :=
  fp.fields.find? (fun f => f.name = name)

/-- `FOOTPRINT.HasFieldByName`. -/
def hasFieldByName (fp : PCBFootprint) (name : String) : Bool :=
  fp.fields.any (fun f => f.name = name)

/-- `FootprintData` (plugin.py lines 81-150): a board footprint together
with the attached inventory part, if any. -/
structure FootprintData where
  footprint : PCBFootprint
  partdb_part : Option Part
deriving DecidableEq

namespace FootprintData

/-- `FootprintData.partdb_id` (plugin.py lines 103-109): the text of the
`PartDB_ID` field, with a missing field or empty text normalized to
`None`. -/
def partdb_id (fd : FootprintData) : Option String :=
  match getFieldByName fd.footprint PARTDB_ID_FIELD_NAME with
  | none => none
  | some f => if f.text = "" then none else some f.text

/-- `FootprintData.mpn` (plugin.py lines 111-117): same normalization for
the `MPN` field. -/
def mpn (fd : FootprintData) : Option String :=
  match getFieldByName fd.footprint MPN_FIELD_NAME with
  | none => none
  | some f => if f.text = "" then none else some f.text

/-- `FootprintData.storage_location` (plugin.py lines 119-126):
`', '.join(lot.storage_location.name for lot in partLots)` — all lot
names in lot order, duplicates included; `None` when there is no
attached part or the part has no lots. -/
def storage_location (fd : FootprintData) : Option String :=
  match fd.partdb_part with
  | none => none
  | some part =>
    if part.partLots.length > 0 then
      some (String.intercalate ", "
        (part.partLots.map (fun lot => lot.storage_location.name)))
    else none

/-- `FootprintData.amount` (plugin.py lines 128-134): `str(sum(...))`
over the lot amounts; `None` when there is no part or no lots. -/
def amount (fd : FootprintData) : Option String :=
  match fd.partdb_part with
  | none => none
  | some part =>
    if part.partLots.length > 0 then
      some (toString (part.partLots.map (fun lot => lot.amount)).sum)
    else none

/-- Python `str(x)` applied to an optional string: `str(None)` is the
literal string `"None"`. -/
def pyStrOpt : Option String → String
  | none => "None"
  | some s => s

/-- The effect of `SetField(STORAGE_LOCATION_FIELD_NAME, t)` on one
field: replace the text of the field with that name, leave others
alone. -/
def setSLText (t : String) (f : PCBField) : PCBField :=
  if f.name = STORAGE_LOCATION_FIELD_NAME then { f with text := t } else f

/-- `FootprintData.update_storage_location` (plugin.py lines 136-150):
if the `Storage_Location` field exists, `SetField` overwrites its text
with the resolved location, or with `''` when the location is falsy;
otherwise a new invisible field is added whose text is
`str(storage_location)` — which is the literal `"None"` when the
location is `None`. -/
def update_storage_location (fd : FootprintData) : FootprintData :=
  let sl := storage_location fd
  if hasFieldByName fd.footprint STORAGE_LOCATION_FIELD_NAME then
    let newFields := fd.footprint.fields.map (setSLText (sl.getD ""))
    { fd with footprint := { fd.footprint with fields := newFields } }
  else
    let newField : PCBField := ⟨STORAGE_LOCATION_FIELD_NAME, pyStrOpt sl, false⟩
    { fd with footprint := { fd.footprint with fields := fd.footprint.fields ++ [newField] } }

theorem update_fields_of_has (fd : FootprintData)
    (h : hasFieldByName fd.footprint STORAGE_LOCATION_FIELD_NAME = true) :
    (update_storage_location fd).footprint.fields
      = fd.footprint.fields.map (setSLText ((storage_location fd).getD "")) := by
  simp only [update_storage_location]
  rw [if_pos h]

theorem update_fields_of_not_has (fd : FootprintData)
    (h : hasFieldByName fd.footprint STORAGE_LOCATION_FIELD_NAME = false) :
    (update_storage_location fd).footprint.fields
      = fd.footprint.fields
        ++ [⟨STORAGE_LOCATION_FIELD_NAME, pyStrOpt (storage_location fd), false⟩] := by
  simp only [update_storage_location]
  rw [if_neg (by simp [h])]

theorem setSLText_name (t : String) (f : PCBField) : (setSLText t f).name = f.name := by
  unfold setSLText
  split <;> rfl

theorem map_setSLText_names (t : String) (l : List PCBField) :
    (l.map (setSLText t)).map PCBField.name = l.map PCBField.name := by
  induction l with
  | nil => rfl
  | cons f l ih => simp [setSLText_name, ih]

theorem filter_map_setSLText (t : String) (l : List PCBField) :
    (l.map (setSLText t)).filter (fun f => ¬ f.name = STORAGE_LOCATION_FIELD_NAME)
      = l.filter (fun f => ¬ f.name = STORAGE_LOCATION_FIELD_NAME) := by
  induction l with
  | nil => rfl
  | cons f l ih =>
    by_cases h : f.name = STORAGE_LOCATION_FIELD_NAME
    · have h1 : setSLText t f = { f with text := t } := by
        unfold setSLText
        rw [if_pos h]
      simp only [decide_not] at ih
      simp [List.filter_cons, h1, h, ih]
    · have h1 : setSLText t f = f := by
        unfold setSLText
        rw [if_neg h]
      simp only [decide_not] at ih
      simp [List.filter_cons, h1, h, ih]

theorem mem_map_setSLText_text {t : String} {l : List PCBField} :
    ∀ f ∈ l.map (setSLText t), f.name = STORAGE_LOCATION_FIELD_NAME → f.text = t := by
  intro f hf hname
  obtain ⟨f0, hf0, hmap⟩ := List.mem_map.1 hf
  by_cases h : f0.name = STORAGE_LOCATION_FIELD_NAME
  · rw [← hmap]
    unfold setSLText
    rw [if_pos h]
  · exfalso
    rw [← hmap] at hname
    unfold setSLText at hname
    rw [if_neg h] at hname
    exact h hname

/-- An unresolved record — no attached part, or a part without lots —
derives no storage location. -/
theorem storage_location_eq_none {fd : FootprintData}
    (h : fd.partdb_part = none ∨ ∃ p, fd.partdb_part = some p ∧ p.partLots = []) :
    storage_location fd = none := by
  rcases h with h | ⟨p, hp, hlots⟩
  · simp [storage_location, h]
  · simp [storage_location, hp, hlots]

end FootprintData

/-- The footprint selection of `_load_board_footprints` (plugin.py
lines 477-481): keep a footprint unless `IsExcludedFromBOM()`; the
do-not-populate flag is not consulted. -/
def selectedFootprints (board : List PCBFootprint) : List FootprintData :=
  (board.filter (fun fp => !fp.excludedFromBOM)).map (fun fp => ⟨fp, none⟩)

/-- The grouping key of `_load_board_footprints`: `(fp.mpn, fp.partdb_id)`. -/
def pluginKey (fd : FootprintData) : Option String × Option String :=
  (fd.mpn, fd.partdb_id)

/-- `_load_board_footprints` (plugin.py lines 473-487): select, then
group into the insertion-ordered dict `footprints_data_grouped`. -/
def load_board_footprints (board : List PCBFootprint) :
    List ((Option String × Option String) × List FootprintData) :=
  buildGroups pluginKey (selectedFootprints board)

/-- The fetch behaviour of `_sync_thread` (plugin.py lines 426-433):
iterate the grouped dict in insertion order; `continue` on a falsy
(absent) `partdb_id`; otherwise place exactly one
`get_part_from_id(partdb_id)` call.  The result lists the fetched IDs in
call order, one entry per network call. -/
def syncFetchIds (gs : List ((Option String × Option String) × List FootprintData)) :
    List String :=
  gs.foldl (fun calls g =>
    match g.1.2 with
    | none => calls
    | some pid => calls ++ [pid]) []

theorem syncFetchIds_foldl
    (gs : List ((Option String × Option String) × List FootprintData)) :
    ∀ acc : List String,
      gs.foldl (fun calls g =>
        match g.1.2 with
        | none => calls
        | some pid => calls ++ [pid]) acc
      = acc ++ (gs.map Prod.fst).filterMap Prod.snd := by
  induction gs with
  | nil => intro acc; simp
  | cons g gs ih =>
    intro acc
    simp only [List.foldl_cons, List.map_cons]
    cases hid : g.1.2 with
    | none =>
      rw [ih acc, List.filterMap_cons]
      simp [hid]
    | some pid =>
      rw [ih (acc ++ [pid]), List.filterMap_cons]
      simp [hid]

/-- One fetch call is placed per group whose key's inventory-ID
component is present, in group order. -/
theorem syncFetchIds_eq
    (gs : List ((Option String × Option String) × List FootprintData)) :
    syncFetchIds gs = (gs.map Prod.fst).filterMap Prod.snd := by
  have := syncFetchIds_foldl gs []
  simpa [syncFetchIds] using this

/-- `_on_save` (plugin.py lines 454-466): `update_storage_location` on
every footprint of every group. -/
def on_save (gs : List ((Option String × Option String) × List FootprintData)) :
    List ((Option String × Option String) × List FootprintData) :=
  gs.map (fun g => (g.1, g.2.map FootprintData.update_storage_location))

/-! ## plugin.py: the display ordering of `update_table`

`FootprintTablePanel.update_table` (plugin.py lines 259-262) sorts the
grouped dict items by the Python key
`(mpn is None, mpn, partdb_id is None, partdb_id)`: a case-SENSITIVE
string comparison in which absent (`None`) components sort last.  When a
flag component differs the string component is never compared, so
replacing `None` by `""` in the string slots is comparison-equivalent. -/

def displaySortKey (k : Option String × Option String) :
    Bool × String × Bool × String :=
  (k.1.isNone, k.1.getD "", k.2.isNone, k.2.getD "")

/-- Python `False < True`. -/
def boolLtB (a b : Bool) : Prop := a = false ∧ b = true

/-- Python tuple `<=` on the 4-component display sort key. -/
def displayLe (a b : (Option String × Option String) × List FootprintData) : Prop :=
  boolLtB (displaySortKey a.1).1 (displaySortKey b.1).1 ∨
  ((displaySortKey a.1).1 = (displaySortKey b.1).1 ∧
    (strLt (displaySortKey a.1).2.1 (displaySortKey b.1).2.1 ∨
    ((displaySortKey a.1).2.1 = (displaySortKey b.1).2.1 ∧
      (boolLtB (displaySortKey a.1).2.2.1 (displaySortKey b.1).2.2.1 ∨
      ((displaySortKey a.1).2.2.1 = (displaySortKey b.1).2.2.1 ∧
        strLe (displaySortKey a.1).2.2.2 (displaySortKey b.1).2.2.2)))))

instance : DecidableRel displayLe := fun a b => by
  unfold displayLe boolLtB; infer_instance

/-- The row order produced by `update_table`: the grouped items sorted by
the display key (Python `sorted` is stable; modelled by the stable
`List.insertionSort`). -/
def update_table_order
    (gs : List ((Option String × Option String) × List FootprintData)) :
    List ((Option String × Option String) × List FootprintData) :=
  List.insertionSort displayLe gs

/-! ## partdb/api.py: the inventory client `PartDB.get_part_from_id`

The network boundary is modelled by the possible outcomes of
`self.client.get(f'parts/{id}')` as seen by the caller: a transport
failure (the `requests` exception re-raised by `APIClient.get`), or a
response carrying a status code and a body that either decodes to a JSON
value or fails to decode.  A raised Python exception is modelled as an
`Except.error` value; `get_part_from_id`'s `except Exception` handler
turns any of them into `None`. -/

/-- A JSON value, as produced by `response.json()`. -/
inductive JVal where
  | jnull
  | jbool (b : Bool)
  | jint (n : Int)
  | jstr (s : String)
  | jlist (l : List JVal)
  | jdict (kvs : List (String × JVal))

/-- `APIClient._handle_response` (api.py lines 80-102):
`response.raise_for_status()` raises `HTTPError` exactly for status
codes 400-599; a 204 returns `{}` without reading the body; otherwise
`response.json()` is returned, raising `JSONDecodeError` when the body
does not decode. -/
def handle_response (status : Nat) (body : Option JVal) : Except String JVal :=
  if 400 ≤ status ∧ status < 600 then Except.error "HTTPError"
  else if status = 204 then Except.ok (JVal.jdict [])
  else match body with
    | none => Except.error "JSONDecodeError"
    | some j => Except.ok j

/-- The outcome of one `GET parts/{id}` network exchange. -/
inductive HttpResult where
  | transportFailure
  | response (status : Nat) (body : Option JVal)

/-- `APIClient.get` (api.py lines 104-139): a transport failure is
logged and re-raised; otherwise the response goes through
`_handle_response`. -/
def client_get : HttpResult → Except String JVal
  | HttpResult.transportFailure => Except.error "RequestException"
  | HttpResult.response s b => handle_response s b

/-- The annotated field names of `Part` (partdb/part.py lines 64-70), in
annotation order. -/
def partAnnotations : List String :=
  ["id", "name", "manufacturer_product_number", "category", "description", "partLots"]

/-- Python dict lookup on a parsed JSON object (for duplicate keys the
last entry wins, as in `json.loads`). -/
def jdictGet (kvs : List (String × JVal)) (k : String) : Option JVal :=
  match (kvs.filter (fun p => p.1 = k)).getLast? with
  | none => none
  | some p => some p.2

/-- Python `needle in hay` for strings: substring containment. -/
def strContains (hay needle : String) : Bool :=
  decide (needle.data <:+: hay.data)

/-- `AutoInit.from_dict` (partdb/part.py lines 29-48) applied to the
`Part` annotations, modelled at the attribute-dictionary level: for a
JSON object it selects the annotated keys that are present (the nested
`Category`/`PartLot` conversions are total and never raise, so the
values are kept as raw JSON here); `key in data` on a number, boolean or
null raises `TypeError`; on a string it is a substring test and on a
list a membership test, in both cases followed by `data[key]`, which
raises `TypeError` for a string index. -/
def from_dict (annots : List String) : JVal → Except String (List (String × JVal))
  | JVal.jdict kvs =>
      Except.ok (annots.filterMap (fun k => (jdictGet kvs k).map (fun v => (k, v))))
  | JVal.jlist xs =>
      if annots.any (fun k => xs.any (fun x =>
          match x with
          | JVal.jstr s => s = k
          | _ => false))
      then Except.error "TypeError" else Except.ok []
  | JVal.jstr s =>
      if annots.any (fun k => strContains s k)
      then Except.error "TypeError" else Except.ok []
  | _ => Except.error "TypeError"

/-- `PartDB.get_part_from_id` (api.py lines 380-387): `try` the network
call and the `Part.from_dict(data)` mapping; any exception is logged and
`None` is returned — the function's type is an `Option`, it never
propagates an exception to the caller. -/
def get_part_from_id (r : HttpResult) : Option (List (String × JVal)) :=
  match client_get r with
  | Except.error _ => none
  | Except.ok j =>
    match from_dict partAnnotations j with
    | Except.error _ => none
    | Except.ok d => some d

/-! ## plugin.py: configuration loading -/

/-- The observable state of the configuration file at load time: the
file is absent, present but not valid JSON (`json.load` raises), or
parsed to an object with the two optional keys. -/
inductive ConfigFileState where
  | absent
  | malformed
  | parsed (api_url token : Option String)

/-- `_load_config` (plugin.py lines 505-515): return the saved values
(`config.get(key, '')` per key) when the file exists and parses, and the
built-in defaults when the file does not exist.  There is no `try`
around `json.load`, so a malformed file raises `json.JSONDecodeError`
out of `_load_config` (the `Except.error` case). -/
def load_config : ConfigFileState → Except String (String × String)
  | ConfigFileState.absent => Except.ok ("https://partdb.example.com/api", "")
  | ConfigFileState.malformed => Except.error "json.JSONDecodeError"
  | ConfigFileState.parsed u t => Except.ok (u.getD "", t.getD "")

/-! ## Concrete example inputs used by the claim theorems -/

/-- A demo footprint with the two named fields set, not excluded. -/
def exampleDemoFp (ref mpn pid : String) : DummyFootprintInstance :=
  ⟨ref, [⟨"MPN", some mpn⟩, ⟨"PartDB_ID", some pid⟩], false, false⟩

/-- A board footprint with the two named fields set, not excluded. -/
def examplePCBFp (ref mpn pid : String) : PCBFootprint :=
  ⟨ref, [⟨"MPN", mpn, true⟩, ⟨"PartDB_ID", pid, true⟩], false, false⟩

/-- The four-key input of the spec's sort-order example. -/
def c1Input : List DummyFootprintInstance :=
  [exampleDemoFp "C1" "grm123" "312", exampleDemoFp "C33" "grm123" "311",
   exampleDemoFp "C9" "" "", exampleDemoFp "C2" "GRM200" "379"]

/-- The same four keys as board footprints. -/
def c1Board : List PCBFootprint :=
  [examplePCBFp "C1" "grm123" "312", examplePCBFp "C33" "grm123" "311",
   examplePCBFp "C9" "" "", examplePCBFp "C2" "GRM200" "379"]

/-- The spec's seven-footprint reconciliation example, with the demo
MPNs (UI_test.py lines 186-195). -/
def c2Board : List PCBFootprint :=
  [examplePCBFp "C1" "GRM123" "312", examplePCBFp "C33" "GRM123" "311",
   examplePCBFp "C38" "GRM123" "312", examplePCBFp "C2" "GRM200" "379",
   examplePCBFp "C8" "GRM200" "379", examplePCBFp "C9" "GRM200" "",
   examplePCBFp "C10" "GRM200" ""]

/-- Two footprints sharing an inventory ID under different MPNs: two
distinct groups with the same ID component. -/
def c2SharedIdBoard : List PCBFootprint :=
  [examplePCBFp "R1" "A" "312", examplePCBFp "R2" "B" "312"]

/-- A footprint with an existing `Storage_Location` field and no
attached inventory part. -/
def c3Fp : FootprintData :=
  ⟨⟨"C7", [⟨"Storage_Location", "Shelf A", true⟩], false, false⟩, none⟩

/-- A footprint with no fields and no attached inventory part. -/
def c10Fp : FootprintData := ⟨⟨"C8", [], false, false⟩, none⟩

def storageA : Storage := ⟨1, "A", "loc/A"⟩
def storageB : Storage := ⟨2, "B", "loc/B"⟩
def c6Cat : Category := ⟨1, "caps", "parts/caps"⟩

/-- A part with lots `[(A,2),(B,3)]`. -/
def c6Part : Part := ⟨7, "cap100n", "GRM123", c6Cat, "a capacitor",
  [⟨storageA, 2⟩, ⟨storageB, 3⟩]⟩

def c6Fp : FootprintData := ⟨⟨"C1", [], false, false⟩, some c6Part⟩

/-- A part with two lots at the same storage location `A`. -/
def c6DupPart : Part := ⟨8, "cap200n", "GRM124", c6Cat, "a capacitor",
  [⟨storageA, 2⟩, ⟨storageA, 3⟩]⟩

def c6DupFp : FootprintData := ⟨⟨"C2", [], false, false⟩, some c6DupPart⟩

/-- A board footprint marked do-not-populate but not excluded from the
BOM. -/
def c7Dnp : PCBFootprint := ⟨"R9", [], false, true⟩

/-- A well-formed part payload. -/
def c5GoodBody : JVal := JVal.jdict [("id", JVal.jint 5)]

/-! ## Claim theorems -/

/-- C1 (counterexample): on the spec's own four keys, `group_footprints`
puts the all-empty key group FIRST, not last — the empty string is the
minimum of the lexicographic order — so the output is not the claimed
order with the empty-key group last. -/
theorem c1_counterexample :
    (group_footprints c1Input).map Prod.fst
      = [("", ""), ("grm123", "311"), ("grm123", "312"), ("GRM200", "379")] ∧
    (group_footprints c1Input).map Prod.fst
      ≠ [("grm123", "311"), ("grm123", "312"), ("GRM200", "379"), ("", "")] := by
  constructor
  · decide
  · decide

/-- C1 (amended): the grouped output of `group_footprints` is ordered
ascending by case-insensitive lexical comparison of the key components,
with an absent/empty component sorting BEFORE any present value (the
all-empty key group appears first): the example keys come out as
`("",""), ("grm123","311"), ("grm123","312"), ("GRM200","379")`.  The
plugin's `update_table` display sort is case-SENSITIVE with absent
(None) components last: the same keys come out as
`(GRM200,379), (grm123,311), (grm123,312), (None,None)`. -/
theorem c1_amended :
    (∀ fps : List DummyFootprintInstance,
      List.Sorted groupLe (group_footprints fps)) ∧
    (∀ k : String × String, keyLe ("", "") k) ∧
    (group_footprints c1Input).map Prod.fst
      = [("", ""), ("grm123", "311"), ("grm123", "312"), ("GRM200", "379")] ∧
    (update_table_order (load_board_footprints c1Board)).map Prod.fst
      = [(some "GRM200", some "379"), (some "grm123", some "311"),
         (some "grm123", some "312"), (none, none)] := by
  refine ⟨group_footprints_sorted, keyLe_empty_min, by decide, by decide⟩

/-- C2 (counterexample): two footprints with the same inventory ID `312`
but different MPNs form two groups, and one sync run places one fetch
call per group — two calls for the single distinct non-empty ID `312`,
refuting "at most once per distinct non-empty inventory ID regardless of
how many groups share that ID". -/
theorem c2_counterexample :
    syncFetchIds (load_board_footprints c2SharedIdBoard) = ["312", "312"] ∧
    ¬ (syncFetchIds (load_board_footprints c2SharedIdBoard)).count "312" ≤ 1 := by
  constructor
  · decide
  · decide

/-- C2 (amended): one reconciliation run calls `get_part_from_id`
exactly once per group whose key's inventory-ID component is non-empty
(group keys are pairwise distinct), and empty-ID groups trigger no
fetch; since distinct groups can share an ID component, this is at most
once per group, not per distinct ID.  The spec's seven-footprint example
(grouped by the demo's MPNs) makes exactly the three calls
312, 311, 379. -/
theorem c2_amended :
    (∀ board : List PCBFootprint,
      syncFetchIds (load_board_footprints board)
        = ((load_board_footprints board).map Prod.fst).filterMap Prod.snd ∧
      ((load_board_footprints board).map Prod.fst).Nodup) ∧
    syncFetchIds (load_board_footprints c2Board) = ["312", "311", "379"] := by
  refine ⟨fun board => ⟨syncFetchIds_eq _, buildGroups_keys_nodup pluginKey _⟩, ?_⟩
  decide

/-- C3 (counterexample): a footprint with no resolved storage location
(no attached part) and an existing `Storage_Location` field is NOT left
untouched by the commit: the field's text `"Shelf A"` is overwritten
with the empty string. -/
theorem c3_counterexample :
    c3Fp.storage_location = none ∧
    (c3Fp.update_storage_location).footprint ≠ c3Fp.footprint ∧
    (c3Fp.update_storage_location).footprint.fields
      = [⟨"Storage_Location", "", true⟩] := by
  refine ⟨rfl, by decide, by decide⟩

/-- C3 (amended): the commit operation touches the storage-location
field of EVERY footprint, resolved or not: fields other than
`Storage_Location` are untouched, no field is ever removed; when the
field exists its text is overwritten with the resolved location or with
`""` when unresolved; when it is absent an invisible field is appended
whose text is `str(storage_location)` — the resolved value, or the
literal `"None"` when unresolved. -/
theorem c3_amended (fd : FootprintData) :
    ((fd.update_storage_location).footprint.fields.filter
        (fun f => ¬ f.name = STORAGE_LOCATION_FIELD_NAME)
      = fd.footprint.fields.filter
        (fun f => ¬ f.name = STORAGE_LOCATION_FIELD_NAME)) ∧
    (fd.footprint.fields.length ≤ (fd.update_storage_location).footprint.fields.length) ∧
    (hasFieldByName fd.footprint STORAGE_LOCATION_FIELD_NAME = true →
      ((fd.update_storage_location).footprint.fields.map PCBField.name
          = fd.footprint.fields.map PCBField.name ∧
        ∀ f ∈ (fd.update_storage_location).footprint.fields,
          f.name = STORAGE_LOCATION_FIELD_NAME →
            f.text = (fd.storage_location).getD "")) ∧
    (hasFieldByName fd.footprint STORAGE_LOCATION_FIELD_NAME = false →
      (fd.update_storage_location).footprint.fields
        = fd.footprint.fields
          ++ [⟨STORAGE_LOCATION_FIELD_NAME,
               FootprintData.pyStrOpt fd.storage_location, false⟩]) := by
  refine ⟨?_, ?_, ?_, ?_⟩
  · cases hx : hasFieldByName fd.footprint STORAGE_LOCATION_FIELD_NAME
    · rw [FootprintData.update_fields_of_not_has fd hx, List.filter_append]
      have hnew : ([(⟨STORAGE_LOCATION_FIELD_NAME,
          FootprintData.pyStrOpt fd.storage_location, false⟩ : PCBField)]).filter
          (fun f => ¬ f.name = STORAGE_LOCATION_FIELD_NAME) = [] := by
        simp
      rw [hnew, List.append_nil]
    · rw [FootprintData.update_fields_of_has fd hx]
      exact FootprintData.filter_map_setSLText _ _
  · cases hx : hasFieldByName fd.footprint STORAGE_LOCATION_FIELD_NAME
    · rw [FootprintData.update_fields_of_not_has fd hx]
      simp
    · rw [FootprintData.update_fields_of_has fd hx]
      simp
  · intro hx
    rw [FootprintData.update_fields_of_has fd hx]
    exact ⟨FootprintData.map_setSLText_names _ _,
      fun f hf hn => FootprintData.mem_map_setSLText_text f hf hn⟩
  · intro hx
    exact FootprintData.update_fields_of_not_has fd hx

/-- C3 (witness): instantiation of the amended commit theorem at the
concrete footprint with an existing field and no resolved location. -/
theorem c3_amended_witness :
    hasFieldByName c3Fp.footprint STORAGE_LOCATION_FIELD_NAME = true ∧
    (c3Fp.update_storage_location).footprint.fields.map PCBField.name
      = c3Fp.footprint.fields.map PCBField.name :=
  ⟨by decide, ((c3_amended c3Fp).2.2.1 (by decide)).1⟩

/-- C4: the grouping operation is a partition: flattening the groups is
a permutation of the input (every footprint lands in exactly one group,
multiset-equal to the input), group keys are pairwise distinct, every
group's member list is exactly the input footprints carrying that key,
in input encounter order. -/
theorem c4_partition (fps : List DummyFootprintInstance) :
    (concatMembers (group_footprints fps)).Perm fps ∧
    ((group_footprints fps).map Prod.fst).Nodup ∧
    ∀ g ∈ group_footprints fps, g.2 = fps.filter (fun fp => uiKey fp = g.1) :=
  ⟨group_footprints_perm fps, group_footprints_keys_nodup fps,
    group_footprints_members fps⟩

/-- C4 (witness): the partition theorem applied to the concrete
four-footprint example. -/
theorem c4_witness :
    (concatMembers (group_footprints c1Input)).Perm c1Input :=
  (c4_partition c1Input).1

/-- C5 (counterexample): a non-2xx status that is not an HTTP error —
here a 301 whose body parses to a part object — does NOT yield an absent
result: `raise_for_status` only raises for 4xx/5xx, so the payload is
mapped and a part is returned. -/
theorem c5_counterexample :
    get_part_from_id (HttpResult.response 301 (some c5GoodBody))
      = some [("id", JVal.jint 5)] ∧
    get_part_from_id (HttpResult.response 301 (some c5GoodBody)) ≠ none := by
  constructor
  · rfl
  · intro hnone
    rw [show get_part_from_id (HttpResult.response 301 (some c5GoodBody))
        = some [("id", JVal.jint 5)] from rfl] at hnone
    exact Option.noConfusion hnone

/-- C5 (amended): `get_part_from_id` returns absent — and never raises,
its type is `Option` — on a transport failure, on any 4xx/5xx status,
on an undecodable body, and on any payload whose mapping raises; but a
non-error non-2xx status (1xx/3xx) reaching the handler with a parseable
body is not treated as a failure. -/
theorem c5_amended :
    get_part_from_id HttpResult.transportFailure = none ∧
    (∀ s b, 400 ≤ s → s < 600 →
      get_part_from_id (HttpResult.response s b) = none) ∧
    (∀ s, ¬ 400 ≤ s → ¬ s = 204 →
      get_part_from_id (HttpResult.response s none) = none) ∧
    (∀ s j e, ¬ 400 ≤ s → ¬ s = 204 →
      from_dict partAnnotations j = Except.error e →
      get_part_from_id (HttpResult.response s (some j)) = none) := by
  refine ⟨rfl, ?_, ?_, ?_⟩
  · intro s b h1 h2
    have hc : client_get (HttpResult.response s b) = Except.error "HTTPError" := by
      show handle_response s b = _
      unfold handle_response
      rw [if_pos ⟨h1, h2⟩]
    simp [get_part_from_id, hc]
  · intro s h1 h2
    have hc : client_get (HttpResult.response s none)
        = Except.error "JSONDecodeError" := by
      show handle_response s none = _
      unfold handle_response
      rw [if_neg (fun hand => h1 hand.1), if_neg h2]
    simp [get_part_from_id, hc]
  · intro s j e h1 h2 hfd
    have hc : client_get (HttpResult.response s (some j)) = Except.ok j := by
      show handle_response s (some j) = _
      unfold handle_response
      rw [if_neg (fun hand => h1 hand.1), if_neg h2]
    simp [get_part_from_id, hc, hfd]

/-- C5 (witness): the amended fetch theorem applied at a 404 with a
good body, a 200 with an undecodable body, and a 200 with an unmappable
(integer) payload. -/
theorem c5_witness :
    get_part_from_id (HttpResult.response 404 (some c5GoodBody)) = none ∧
    get_part_from_id (HttpResult.response 200 none) = none ∧
    get_part_from_id (HttpResult.response 200 (some (JVal.jint 3))) = none :=
  ⟨c5_amended.2.1 404 (some c5GoodBody) (by decide) (by decide),
   c5_amended.2.2.1 200 (by decide) (by decide),
   c5_amended.2.2.2 200 (JVal.jint 3) "TypeError" (by decide) (by decide) rfl⟩

/-- C6 (counterexample): a part with two lots at storage location `A`
derives the storage location `"A, A"` — all lot names joined in lot
order, duplicates NOT collapsed to a distinct set (which would be
`"A"`). -/
theorem c6_counterexample :
    c6DupFp.storage_location = some "A, A" ∧
    c6DupPart.partLots.map (fun lot => lot.storage_location.name) = ["A", "A"] ∧
    ¬ (["A", "A"] : List String).Nodup ∧
    c6DupFp.storage_location ≠ some "A" := by
  refine ⟨by decide, by decide, by decide, by decide⟩

/-- C6 (amended): for a record with an attached part, the derived
storage location is the comma-join of ALL lot storage-location names in
lot order (duplicates included), the derived quantity is the string of
the sum of all lot amounts, and a part with no lots derives both as
absent (`None`), not `"0"`. -/
theorem c6_amended (fd : FootprintData) (p : Part) (h : fd.partdb_part = some p) :
    (p.partLots = [] → fd.storage_location = none ∧ fd.amount = none) ∧
    (p.partLots ≠ [] →
      fd.storage_location = some (String.intercalate ", "
        (p.partLots.map (fun lot => lot.storage_location.name))) ∧
      fd.amount = some (toString (p.partLots.map (fun lot => lot.amount)).sum)) := by
  constructor
  · intro hl
    constructor
    · simp [FootprintData.storage_location, h, hl]
    · simp [FootprintData.amount, h, hl]
  · intro hl
    have hlen : 0 < p.partLots.length := List.length_pos.2 hl
    constructor
    · simp [FootprintData.storage_location, h, hlen]
    · simp [FootprintData.amount, h, hlen]

/-- C6 (witness): lots `[(A,2),(B,3)]` derive storage `"A, B"` and
quantity `"5"`. -/
theorem c6_witness :
    c6Fp.storage_location = some "A, B" ∧ c6Fp.amount = some "5" := by
  have h := (c6_amended c6Fp c6Part rfl).2 (by decide)
  exact ⟨h.1.trans (by decide), h.2.trans (by decide)⟩

/-- C7 (counterexample): a footprint marked do-not-populate (and not
excluded from the BOM) is NOT excluded by the plugin's accessor — it
appears in the managed set, refuting "excluded iff DNP or excluded from
BOM". -/
theorem c7_counterexample :
    c7Dnp.doNotPopulate = true ∧ c7Dnp.excludedFromBOM = false ∧
    concatMembers (load_board_footprints [c7Dnp]) = [⟨c7Dnp, none⟩] := by
  refine ⟨rfl, rfl, by decide⟩

/-- C7 (amended): the plugin's accessor (`_load_board_footprints`)
excludes a footprint if and only if it is marked exclude-from-BOM — the
do-not-populate flag is not consulted; the demo dialog's accessor
(`on_refresh`) excludes exactly the footprints marked do-not-populate or
exclude-from-BOM. -/
theorem c7_amended :
    (∀ board : List PCBFootprint,
      (concatMembers (load_board_footprints board)).Perm
        ((board.filter (fun fp => !fp.excludedFromBOM)).map
          (fun fp => FootprintData.mk fp none))) ∧
    (∀ fps : List DummyFootprintInstance,
      uiRefreshSelected fps = fps.filter
        (fun fp => !(fp.do_not_populate || fp.exclude_from_bill_of_materials))) :=
  ⟨fun board => concatMembers_buildGroups pluginKey (selectedFootprints board),
   uiRefreshSelected_eq_filter⟩

/-- C8 (counterexample): a present-but-malformed configuration file does
NOT fall back to defaults: `_load_config` has no exception handler, so
`json.load` raises out of it. -/
theorem c8_counterexample :
    load_config ConfigFileState.malformed = Except.error "json.JSONDecodeError" ∧
    load_config ConfigFileState.malformed
      ≠ Except.ok ("https://partdb.example.com/api", "") := by
  constructor
  · rfl
  · intro h
    rw [show load_config ConfigFileState.malformed
        = Except.error "json.JSONDecodeError" from rfl] at h
    exact Except.noConfusion h

/-- C8 (amended): an absent configuration file yields the built-in
defaults without raising; a parsed file yields its saved values with
`''` per-key defaults; but a present-and-malformed file raises the JSON
parse error out of the startup load. -/
theorem c8_amended :
    load_config ConfigFileState.absent
      = Except.ok ("https://partdb.example.com/api", "") ∧
    load_config ConfigFileState.malformed = Except.error "json.JSONDecodeError" ∧
    ∀ u t, load_config (ConfigFileState.parsed u t)
      = Except.ok (u.getD "", t.getD "") :=
  ⟨rfl, rfl, fun _ _ => rfl⟩

/-- C9: the grouping operation is idempotent — regrouping the flattened
members of its own output yields the identical grouped output (same
keys, same members, same order). -/
theorem c9_idempotent (fps : List DummyFootprintInstance) :
    group_footprints (concatMembers (group_footprints fps)) = group_footprints fps :=
  group_footprints_idem fps

/-- C10: at commit time, an unresolved record — no attached inventory
part, or a part with no lots — overwrites an existing
`Storage_Location` field with the empty string, and when the field is
absent creates a new invisible field whose text is the literal string
`"None"`. -/
theorem c10_unresolved_commit (fd : FootprintData)
    (h : fd.partdb_part = none ∨ ∃ p, fd.partdb_part = some p ∧ p.partLots = []) :
    (hasFieldByName fd.footprint STORAGE_LOCATION_FIELD_NAME = true →
      ∀ f ∈ (fd.update_storage_location).footprint.fields,
        f.name = STORAGE_LOCATION_FIELD_NAME → f.text = "") ∧
    (hasFieldByName fd.footprint STORAGE_LOCATION_FIELD_NAME = false →
      (fd.update_storage_location).footprint.fields
        = fd.footprint.fields ++ [⟨STORAGE_LOCATION_FIELD_NAME, "None", false⟩]) := by
  have hsl : fd.storage_location = none := FootprintData.storage_location_eq_none h
  constructor
  · intro hhas f hf hname
    rw [FootprintData.update_fields_of_has fd hhas, hsl] at hf
    exact FootprintData.mem_map_setSLText_text f hf hname
  · intro hhas
    rw [FootprintData.update_fields_of_not_has fd hhas, hsl]
    rfl

/-- C10 (witness): the unresolved-commit theorem applied to a concrete
footprint with no fields and no part: a `"None"`-texted invisible field
is created. -/
theorem c10_witness :
    (c10Fp.update_storage_location).footprint.fields
      = [⟨STORAGE_LOCATION_FIELD_NAME, "None", false⟩] := by
  have h := (c10_unresolved_commit c10Fp (Or.inl rfl)).2 (by decide)
  simpa using h

end PartDBPlugin
